import Mathlib

/-!
# Verification of the NETS parameter-tree and network-construction core

A shallow embedding, in Lean 4, of the parameter-tree (`spiking_visnet/tree.py`),
the connection-scaling logic (`spiking_visnet/nestify/build.py`), the layer
state-change and projection logic (`denest/network/layers.py`,
`denest/network/projections.py`, `nets/network/layers.py`), together with
theorems about the embedded operations.

Conventions of the embedding:
* Python dictionaries are association lists (`List (String × _)`); only their
  lookup behaviour matters to the theorems, which is first-match (`alookup`),
  matching a Python dict where keys are unique.
* Python floats are modelled as rationals (`ℚ`); the algorithms under study
  only copy, multiply and compare these values.
* Exceptions are modelled with `Except`/explicit error codes.
* Randomness (`random.sample`) is an external input: the drawn sample is an
  explicit argument, constrained by a predicate stating the documented contract
  of `random.sample`.
-/

namespace NETS

/-- A parameter value stored in a tree node's data mapping.  The tree
algorithms never inspect values, they only move and compare them; strings and
integers cover every value the claims touch. -/
inductive Val where
  | vstr (s : String)
  | vint (n : Int)
deriving DecidableEq, Repr

/-- A Python dict of parameter values, as an association list. -/
abbrev Dict := List (String × Val)

/-- First-match association-list lookup: the behaviour of `d[key]`
on a Python dict (whose keys are unique). -/
def alookup {α : Type} : List (String × α) → String → Option α
  | [], _ => none
  | (k, v) :: rest, key => if k = key then some v else alookup rest key

/-- The key set of an association list. -/
def keysOf {α : Type} (l : List (String × α)) : List String := l.map Prod.fst

/-- `Tree.__init__` (tree.py): a node owns a local data dict and a dict of
named children.  The parent reference of the Python object is not a field: it
always points back to the node one level up, so it is carried explicitly by
the traversals below (as the stack of ancestor data dicts). -/
inductive PTree where
  | node (data : Dict) (children : List (String × PTree))

/-- Local data dict of a node (`self.data`). -/
def PTree.data : PTree → Dict
  | .node d _ => d

/-- Named children of a node (`self.c`). -/
def PTree.c : PTree → List (String × PTree)
  | .node _ c => c

/-- `Tree()`: the empty tree (no data, no children). -/
def PTree.empty : PTree := .node [] []

/-- Errors raised by tree traversal and lookup:
`valueErr name` is the `ValueError('no child named ...')` of `Tree.get_node`,
`keyErr key` the `KeyError` reaching the root's parent (a plain dict). -/
inductive TreeErr where
  | valueErr (name : String)
  | keyErr (key : String)
deriving DecidableEq, Repr

/-- `Tree.get_node` (tree.py) over a tuple of child names, additionally
recording the data dicts of the nodes traversed (nearest ancestor first):
this stack is exactly the parent chain the Python objects hold via `self.p`.
`get_node(())` raises `ValueError` (`self.c[()]` is a `KeyError`). -/
def descend (anc : List Dict) (t : PTree) : List String → Except TreeErr (List Dict × PTree)
  | [] => .error (.valueErr "()")
  | [n] =>
    match alookup t.c n with
    | some child => .ok (t.data :: anc, child)
    | none => .error (.valueErr n)
  | n :: rest =>
    match alookup t.c n with
    | some child => descend (t.data :: anc) child rest
    | none => .error (.valueErr n)

/-- The scoped data lookup of `Scope` (tree.py): `UserDict.__getitem__` looks
in the node's own data, and `Scope.__missing__` walks to the parent; the
chain of data dicts is ordered node first, root last.  `none` is the
`KeyError` raised once the root's parent (a plain `dict()`) is reached. -/
def scopeResolve : List Dict → String → Option Val
  | [], _ => none
  | d :: rest, key =>
    match alookup d key with
    | some v => some v
    | none => scopeResolve rest key

/-- `Params.__getitem__` with a tuple key (tree.py):
`self.get_node(key[:-1])[key[-1]]` — traverse children along all but the last
component, then resolve the last component as a data key with scoped
inheritance. -/
def paramsGetTuple (root : PTree) (ks : List String) : Except TreeErr Val :=
  match ks.getLast? with
  | none => .error (.valueErr "()")
  | some key =>
    match descend [] root ks.dropLast with
    | .error e => .error e
    | .ok (anc, dest) =>
      match scopeResolve (dest.data :: anc) key with
      | some v => .ok v
      | none => .error (.keyErr key)

/-- Outcome of `Params.__setitem__` with a tuple key (tree.py):
`self[key[:-1]][key[-1]] = value`.  The left operand is a *data* lookup of
`key[-2]` at the node named by `key[:-2]` (`Params.__getitem__` with a
tuple), so either that lookup raises, or it produces a plain data value `u`
and the statement attempts item assignment on `u` (a `TypeError` for the
scalar values modelled here — never a store into a node's local mapping). -/
inductive SetOutcome where
  | raised (e : TreeErr)
  | typeErrOn (u : Val) (key : String)
deriving DecidableEq, Repr

/-- `Params.__setitem__` with a tuple key (tree.py). -/
def paramsSetTuple (root : PTree) (ks : List String) (_v : Val) : SetOutcome :=
  match paramsGetTuple root ks.dropLast with
  | .error e => .raised e
  | .ok u => .typeErrOn u (ks.getLast?.getD "")

/-- The tree of the `Params` docstring example (tree.py):
`Params(\x7b'c1': \x7b'c2': \x7b'params': \x7b'last_key': 'value'\x7d\x7d\x7d\x7d)`. -/
def docExampleTree : PTree :=
  .node [] [("c1", .node [] [("c2", .node [("last_key", .vstr "value")] [])])]

/-- One list has size at least one. -/
theorem one_le_sizeOf_list {α : Type} [SizeOf α] (l : List α) : 1 ≤ sizeOf l := by
  cases l with
  | nil => simp
  | cons a rest => simp only [List.cons.sizeOf_spec]; omega

/-- A successful association-list lookup finds a strictly smaller subterm
(used for the termination of `merge2`). -/
theorem alookup_sizeOf_add_three_le {c : List (String × PTree)} {n : String} {x : PTree}
    (h : alookup c n = some x) : sizeOf x + 3 ≤ sizeOf c := by
  induction c with
  | nil => simp [alookup] at h
  | cons hd rest ih =>
    obtain ⟨k, v⟩ := hd
    simp only [alookup] at h
    by_cases hk : k = n
    · simp [hk] at h
      subst h
      have := one_le_sizeOf_list rest
      simp only [List.cons.sizeOf_spec, Prod.mk.sizeOf_spec]
      omega
    · simp [hk] at h
      have := ih h
      simp only [List.cons.sizeOf_spec, Prod.mk.sizeOf_spec]
      omega

/-- Every tree has size at least that of the empty tree. -/
theorem three_le_sizeOf_ptree (t : PTree) : 3 ≤ sizeOf t := by
  cases t with
  | node d c =>
    have h1 := one_le_sizeOf_list d
    have h2 := one_le_sizeOf_list c
    simp only [PTree.node.sizeOf_spec]
    omega

/-- `dict(ChainMap(m1, m2))` (tree.py, `Tree.merge`): every key of either
dict, the value from `m1` winning. -/
def chainData (m1 m2 : Dict) : Dict :=
  m1 ++ m2.filter (fun p => (alookup m1 p.1).isNone)

/-- The union of the child names of two nodes
(`set.union(...)` in `Tree.merge`; only per-name lookups matter). -/
def childNames (c1 c2 : List (String × PTree)) : List String :=
  keysOf c1 ++ (keysOf c2).filter (fun n => !((keysOf c1).contains n))

mutual

/-- `Tree.merge` (tree.py) instantiated at two trees: data dicts are combined
with earlier-tree precedence, children are the union of the two child-name
sets, merged recursively, a missing child replaced by the empty tree.
(When a name is in neither dict — unreachable from `childNames` — the merge
of two empty trees is the empty tree, short-circuited here.) -/
def merge2 : PTree → PTree → PTree
  | .node d1 c1, .node d2 c2 =>
    .node (chainData d1 d2) (mergeChildren c1 c2 (childNames c1 c2))
termination_by t1 t2 => (sizeOf t1 + sizeOf t2, 0)
decreasing_by
  simp only [PTree.node.sizeOf_spec]
  apply Prod.Lex.left
  have h1 := one_le_sizeOf_list d1
  have h2 := one_le_sizeOf_list d2
  omega

/-- The recursive merge of the children of two nodes, over a list of child
names (`Tree.merge`, the dict comprehension over `all_names`). -/
def mergeChildren (c1 c2 : List (String × PTree)) : List String → List (String × PTree)
  | [] => []
  | n :: rest =>
    (n, match h1 : alookup c1 n, h2 : alookup c2 n with
        | some x, some y => merge2 x y
        | some x, none => merge2 x PTree.empty
        | none, some y => merge2 PTree.empty y
        | none, none => PTree.empty) :: mergeChildren c1 c2 rest
termination_by names => (sizeOf c1 + sizeOf c2, sizeOf names)
decreasing_by
  · apply Prod.Lex.left
    have := alookup_sizeOf_add_three_le h1
    have := alookup_sizeOf_add_three_le h2
    omega
  · apply Prod.Lex.left
    have := alookup_sizeOf_add_three_le h1
    have h2' := one_le_sizeOf_list c2
    simp only [PTree.empty, PTree.node.sizeOf_spec]
    simp
    omega
  · apply Prod.Lex.left
    have := alookup_sizeOf_add_three_le h2
    have h1' := one_le_sizeOf_list c1
    simp only [PTree.empty, PTree.node.sizeOf_spec]
    simp
    omega
  · apply Prod.Lex.right
    simp only [List.cons.sizeOf_spec]
    omega

end

/-- Python dict equality (`d1 == d2`): same key set, equal value per key.
Checked over the keys occurring in either list; lookups agree everywhere
else (both `none`). -/
def dictEqB (d1 d2 : Dict) : Bool :=
  (keysOf d1 ++ keysOf d2).all (fun k => alookup d1 k == alookup d2 k)

mutual

/-- `Tree.__eq__` (tree.py): `self.data == other.data and self.c == other.c`.
Data dicts are compared as Python dicts; the children dicts are equal when
they have the same names and the named subtrees are recursively equal.  The
parent reference takes no part. -/
def treeEq : PTree → PTree → Bool
  | .node d1 c1, .node d2 c2 =>
    dictEqB d1 d2
      && (keysOf c1).all (fun n => (alookup c2 n).isSome)
      && kidsEq c1 c2
termination_by t1 t2 => sizeOf t2

/-- Each child of the second node is matched by an equal child of the first
(`self.c == other.c`, the per-key value comparison). -/
def kidsEq (c1 : List (String × PTree)) : List (String × PTree) → Bool
  | [] => true
  | (n, t2) :: rest =>
    (match alookup c1 n with
     | some t1 => treeEq t1 t2
     | none => false)
      && kidsEq c1 rest
termination_by l => sizeOf l
decreasing_by
  · simp only [List.cons.sizeOf_spec, Prod.mk.sizeOf_spec]
    omega
  · simp only [List.cons.sizeOf_spec]
    omega

end

/-- A `Scope` node as the Python runtime sees it: the subtree hanging off the
node together with the data dicts of its ancestors (nearest first), which is
what the `self.p` chain provides.  Scoped resolution at the node reads
`scopeResolve (tree.data :: ancestors)`. -/
structure ScopeNode where
  tree : PTree
  ancestors : List Dict

/-- `Scope.__eq__` is inherited from `Tree.__eq__`: only the subtree is
compared, the ancestors are invisible to it. -/
def scopeNodeEq (a b : ScopeNode) : Bool := treeEq a.tree b.tree

/-! ## Connection spatial scaling (`spiking_visnet/nestify/build.py`) -/

/-- The layer parameters that `Connection.__init__` reads from a layer.
`scale_kernels_masks`, `rf_scale_factor` and `weight_gain` are retrieved
with `params.get(..., default)`, so an absent key (`none`) falls back to the
default (`true`, `1.0`, `1.0`). -/
structure LayerParams where
  visSize : ℚ
  nrows : ℕ
  ncols : ℕ
  scale_kernels_masks : Option Bool
  rf_scale_factor : Option ℚ
  weight_gain : Option ℚ

/-- `AbstractLayer.to_extent_units` (build.py): convert a value from grid
units to extent units, `value * (extent / (max(rows, columns) - 1))`. -/
def to_extent_units (value extent : ℚ) (rows columns : ℕ) : ℚ :=
  let size : ℚ := (max rows columns : ℕ) - 1
  let units := extent / size
  value * units

/-- `Layer.extent_units` (build.py): conversion using the layer's own
`visSize`, `nrows`, `ncols`. -/
def LayerParams.extent_units (l : LayerParams) (value : ℚ) : ℚ :=
  to_extent_units value l.visSize l.nrows l.ncols

/-- A connection kernel as it appears in the nest parameters: a bare number
(`float(kernel)` succeeds), a gaussian dict (`'gaussian' in kernel`, its
`sigma` entry kept apart from the remaining entries), or some other dict. -/
inductive Kernel where
  | num (v : ℚ)
  | gaussian (sigma : ℚ) (rest : List (String × ℚ))
  | otherDict (entries : List (String × ℚ))
deriving DecidableEq, Repr

/-- A connection mask: `'circular' in mask` with a radius, or
`'rectangular' in mask` with arrays of extent components per key. -/
inductive Mask where
  | circular (radius : ℚ)
  | rectangular (entries : List (String × List ℚ))
deriving DecidableEq, Repr

/-- `Connection.DEFAULT_SCALE_FACTOR` (build.py). -/
def DEFAULT_SCALE_FACTOR : ℚ := 1

/-- The scale-factor branch of `Connection.__init__` (build.py): convergent
connections scale by the source layer, divergent ones by the target layer,
each only when that layer opts in via `scale_kernels_masks` (default true);
otherwise the default factor `1.0`. -/
def connScaleFactor (connection_type : String) (source target : LayerParams) : ℚ :=
  if connection_type == "convergent" && source.scale_kernels_masks.getD true then
    source.extent_units (source.rf_scale_factor.getD 1)
  else if connection_type == "divergent" && target.scale_kernels_masks.getD true then
    target.extent_units (target.rf_scale_factor.getD 1)
  else
    DEFAULT_SCALE_FACTOR

/-- `Connection.scale_kernel` (build.py): a numeric kernel is returned as-is;
a gaussian kernel has `kernel['gaussian']['sigma']` multiplied by the scale
factor; any other dict is returned unchanged. -/
def scale_kernel (scale_factor : ℚ) : Kernel → Kernel
  | .num v => .num v
  | .gaussian sigma rest => .gaussian (sigma * scale_factor) rest
  | .otherDict entries => .otherDict entries

/-- `Connection.scale_mask` (build.py): a circular mask's radius, or every
scalar of every entry of a rectangular mask, is multiplied by the scale
factor. -/
def scale_mask (scale_factor : ℚ) : Mask → Mask
  | .circular radius => .circular (radius * scale_factor)
  | .rectangular entries =>
    .rectangular (entries.map (fun p => (p.1, p.2.map (fun x => x * scale_factor))))

/-- `Connection.scale_weights` (build.py): weights are multiplied by the
source layer's `weight_gain` (default `1.0`), not by the scale factor. -/
def scale_weights (source : LayerParams) (weights : ℚ) : ℚ :=
  weights * source.weight_gain.getD 1

/-- The nest parameters of a connection that scaling touches. -/
structure ConnNestParams where
  connection_type : String
  kernel : Kernel
  mask : Mask
  weights : ℚ

/-- The scaling part of `Connection.__init__` (build.py): the computed scale
factor together with the rewritten kernel, mask and weights. -/
def buildConnection (source target : LayerParams) (p : ConnNestParams) :
    ℚ × Kernel × Mask × ℚ :=
  let scale_factor := connScaleFactor p.connection_type source target
  (scale_factor, scale_kernel scale_factor p.kernel, scale_mask scale_factor p.mask,
    scale_weights source p.weights)

/-! ## Projections (`denest/network/projections.py`) -/

/-- The two layer classes dispatch on `type(...).__name__` in
`_validate_projection`: an ordinary `Layer` or an `InputLayer`. -/
inductive LayerKind where
  | plainLayer
  | inputLayer
deriving DecidableEq, Repr

/-- What a projection sees of a layer: its class and its name. -/
structure ProjLayer where
  kind : LayerKind
  name : String
deriving DecidableEq, Repr

/-- `InputLayer.PARROT_MODEL` (layers.py): the relay population. -/
def PARROT_MODEL : String := "parrot_neuron"

/-- Exceptions of projection construction: the `assert` statements of
`BaseProjection.__init__` and the `ValueError`s of `_validate_projection`
(tagged by which check fired). -/
inductive ProjErr where
  | assertionError
  | valueErrTarget
  | valueErrSourcePop
deriving DecidableEq, Repr

/-- `BaseProjection._validate_projection` (projections.py): an `InputLayer`
may never be the target; an `InputLayer` source forces the source population
to be exactly the parrot population. -/
def validateProjection (source : ProjLayer) (source_population : Option String)
    (target : ProjLayer) : Except ProjErr Unit :=
  if target.kind = .inputLayer then
    .error .valueErrTarget
  else if source.kind = .inputLayer ∧ source_population ≠ some PARROT_MODEL then
    .error .valueErrSourcePop
  else
    .ok ()

/-- A projection model as `BaseProjection.__init__` reads it: its `type`
parameter and its nest parameters (values are synapse-model names). -/
structure ProjModel where
  name : String
  type : String
  nest_params : List (String × String)
deriving DecidableEq, Repr

/-- The constructed projection state of `BaseProjection.__init__`. -/
structure BaseProj where
  model : ProjModel
  source : ProjLayer
  source_population : Option String
  target : ProjLayer
  target_population : Option String
  synapse_model_key : String
  base_synapse_model : String
deriving DecidableEq, Repr

/-- `BaseProjection.__init__` (projections.py): the `assert`s on the model
type and on the presence of the synapse-model key, then
`_validate_projection()`, all before any engine call (engine calls happen
only in `create()`). -/
def mkBaseProjection (model : ProjModel) (source : ProjLayer)
    (source_population : Option String) (target : ProjLayer)
    (target_population : Option String) : Except ProjErr BaseProj :=
  if ¬(model.type = "topological" ∨ model.type = "multisynapse") then
    .error .assertionError
  else
    let key := if model.type = "topological" then "synapse_model" else "model"
    match alookup model.nest_params key with
    | none => .error .assertionError
    | some syn =>
      match validateProjection source source_population target with
      | .error e => .error e
      | .ok _ =>
        .ok ⟨model, source, source_population, target, target_population, key, syn⟩

/-- A connection tuple as returned by `nest.GetConnections`: the code reads
`c[0]` (source gid) and `c[1]` (target gid); the remaining three components
and the synapse label used for the query are carried along. -/
structure NestConn where
  src : ℕ
  tgt : ℕ
  c2 : ℕ
  c3 : ℕ
  c4 : ℕ
  label : Int
deriving DecidableEq, Repr

/-- The `nest.Connect` call issued by `MultiSynapseProjection.create`. -/
structure ConnectCall where
  srcs : List ℕ
  tgts : List ℕ
  rule : String
  make_symmetric : Bool
deriving DecidableEq, Repr

/-- The error of `MultiSynapseProjection.create` when nothing matches. -/
inductive MultiSynErr where
  | parameterError
deriving DecidableEq, Repr

/-- `MultiSynapseProjection.create` (projections.py): query all connections
carrying `query_synapse_label`, keep those whose endpoints lie in the source
and target population gid lists, raise `ParameterError` when none remain,
otherwise issue one `one_to_one` `nest.Connect` batch over exactly those
(source, target) pairs.  The engine's connection table is the explicit
`existing` argument. -/
def multisynapseCreate (existing : List NestConn) (query_synapse_label : Int)
    (src_pop_gids tgt_pop_gids : List ℕ) (make_symmetric : Bool) :
    Except MultiSynErr ConnectCall :=
  let all_label_conns := existing.filter (fun c => c.label == query_synapse_label)
  let conns := all_label_conns.filter
    (fun c => src_pop_gids.contains c.src && tgt_pop_gids.contains c.tgt)
  if conns = [] then
    .error .parameterError
  else
    .ok ⟨conns.map (·.src), conns.map (·.tgt), "one_to_one", make_symmetric⟩

/-! ## Layer state changes (`denest/network/layers.py`) -/

/-- Exceptions of `AbstractLayer.change_unit_states`: the argument checks
raise `ParameterError`, the one-shot guard a bare `Exception`. -/
inductive ChangeErr where
  | parameterError
  | guardException
deriving DecidableEq, Repr

/-- `AbstractLayer.change_unit_states` (layers.py), the control flow that
decides raising and the `_prob_changed` flag: validate `change_type` and
`proportion`, return unchanged on an empty change dict, raise when the flag
is set and the change is probabilistic, otherwise apply the changes and set
the flag.  The input flag is the layer's `_prob_changed`; the result carries
the updated flag. -/
def changeUnitStates (prob_changed : Bool) (changes_dict : Dict) (proportion : ℚ)
    (change_type : String) : Except ChangeErr Bool :=
  if ¬(change_type = "constant" ∨ change_type = "multiplicative") then
    .error .parameterError
  else if proportion > 1 ∨ proportion < 0 then
    .error .parameterError
  else if changes_dict = [] then
    .ok prob_changed
  else if prob_changed ∧ proportion ≠ 1 then
    .error .guardException
  else
    .ok true

/-- Index the list at each position, left to right (`[gids_list[i] for i in ...]`). -/
def getAllIdx (l : List ℕ) : List ℕ → Option (List ℕ)
  | [] => some []
  | i :: rest =>
    match l.get? i, getAllIdx l rest with
    | some x, some xs => some (x :: xs)
    | _, _ => none

/-- `AbstractLayer.get_gids_subset` (layers.py):
`[gids_list[i] for i in sorted(random.sample(range(len(gids_list)), k))]`.
The drawn sample is the explicit `sampled` argument; the selected indices
are sorted and looked up, `none` modelling the `IndexError` an out-of-range
index would raise. -/
def get_gids_subset (gids_list : List ℕ) (sampled : List ℕ) : Option (List ℕ) :=
  getAllIdx gids_list (sampled.insertionSort (· ≤ ·))

/-- The documented contract of `random.sample(range(n), k)` (Python standard
library, external to the repository): `k` distinct indices below `n`. -/
def IsSample (n k : ℕ) (s : List ℕ) : Prop :=
  s.length = k ∧ s.Nodup ∧ ∀ i ∈ s, i < n

/-! ## Creation guard (`spiking_visnet/nestify/build.py`) -/

/-- What one `create()` call did: skipped with a warning, completed with a
value, or propagated an exception. -/
inductive CreateOutcome (ε β : Type) where
  | skipped
  | completed (v : β)
  | raised (e : ε)
deriving DecidableEq, Repr

/-- `if_not_created` (build.py): when `_created` is already set, warn and
return without touching anything; otherwise set `_created`, run the body
(which may mutate the object state and may raise), and on an exception reset
`_created` to `False` before re-raising.  `body` maps the object state to
the mutated state and the body's result. -/
def if_not_created {σ ε β : Type} (body : σ → σ × Except ε β) (created : Bool)
    (s : σ) : Bool × σ × CreateOutcome ε β :=
  if created then
    (true, s, .skipped)
  else
    match body s with
    | (s2, .ok v) => (true, s2, .completed v)
    | (s2, .error e) => (false, s2, .raised e)

/-- `Tree.get_node` as a partial function (no error detail): the node reached
from `t` by following the named children. -/
def nodeAt (t : PTree) : List String → Option PTree
  | [] => some t
  | n :: rest => (alookup t.c n).bind (fun child => nodeAt child rest)

/-- Plain (non-scoped) data access of a `Tree` node: the node at `path`, then
its local data dict at `key`. -/
def treeGetLocal (t : PTree) (path : List String) (key : String) : Option Val :=
  (nodeAt t path).bind (fun nd => alookup nd.data key)

/-! ## Lemmas about association lists and scoped resolution -/

theorem alookup_append {α : Type} (l1 l2 : List (String × α)) (k : String) :
    alookup (l1 ++ l2) k =
      match alookup l1 k with
      | some v => some v
      | none => alookup l2 k := by
  induction l1 with
  | nil => simp [alookup]
  | cons hd rest ih =>
    obtain ⟨k1, v1⟩ := hd
    by_cases hk : k1 = k
    · simp [alookup, hk]
    · simp [alookup, hk, ih]

theorem alookup_isSome_iff_mem_keys {α : Type} (l : List (String × α)) (k : String) :
    (alookup l k).isSome ↔ k ∈ keysOf l := by
  induction l with
  | nil => simp [alookup, keysOf]
  | cons hd rest ih =>
    obtain ⟨k1, v1⟩ := hd
    by_cases hk : k1 = k
    · simp [alookup, hk, keysOf]
    · have hk' : ¬k = k1 := fun hc => hk hc.symm
      simp [alookup, hk, keysOf, ih, hk']

theorem alookup_eq_none_iff_not_mem_keys {α : Type} (l : List (String × α)) (k : String) :
    alookup l k = none ↔ k ∉ keysOf l := by
  rw [← alookup_isSome_iff_mem_keys]
  cases alookup l k <;> simp

theorem mem_of_alookup_eq_some {α : Type} {l : List (String × α)} {k : String} {v : α}
    (h : alookup l k = some v) : (k, v) ∈ l := by
  induction l with
  | nil => simp [alookup] at h
  | cons hd rest ih =>
    obtain ⟨k1, v1⟩ := hd
    by_cases hk : k1 = k
    · simp [alookup, hk] at h
      simp [hk, h]
    · simp [alookup, hk] at h
      simp [ih h]

/-- With no duplicate keys, every entry is found by lookup. -/
theorem alookup_eq_some_of_mem_of_nodup {α : Type} {l : List (String × α)} {k : String}
    {v : α} (hnd : (keysOf l).Nodup) (h : (k, v) ∈ l) : alookup l k = some v := by
  induction l with
  | nil => simp at h
  | cons hd rest ih =>
    obtain ⟨k1, v1⟩ := hd
    simp only [keysOf, List.map_cons, List.nodup_cons] at hnd
    rcases List.mem_cons.mp h with heq | hmem
    · obtain ⟨hk, hv⟩ := Prod.mk.injEq .. ▸ heq
      simp [alookup, hk, hv]
    · have hk1 : k1 ≠ k := by
        intro hk1
        exact hnd.1 (hk1 ▸ (List.mem_map.mpr ⟨(k, v), hmem, rfl⟩))
      simp [alookup, hk1]
      exact ih hnd.2 hmem

/-- The scoped chain returns the value of the first dict that defines the
key, when every dict before position `i` omits it. -/
theorem scopeResolve_eq_some_of_first {key : String} {v : Val} :
    ∀ (anc : List Dict) (i : ℕ) (d : Dict), anc.get? i = some d →
      alookup d key = some v →
      (∀ j d', j < i → anc.get? j = some d' → alookup d' key = none) →
      scopeResolve anc key = some v := by
  intro anc
  induction anc with
  | nil => intro i d hd; simp at hd
  | cons d0 rest ih =>
    intro i d hd hv hbefore
    cases i with
    | zero =>
      simp at hd
      subst hd
      simp [scopeResolve, hv]
    | succ i' =>
      have h0 : alookup d0 key = none :=
        hbefore 0 d0 (Nat.succ_pos i') rfl
      simp only [scopeResolve, h0]
      rw [List.get?_cons_succ] at hd
      exact ih i' d hd hv (fun j d' hj hget =>
        hbefore (j + 1) d' (Nat.succ_lt_succ hj) (by rw [List.get?_cons_succ]; exact hget))

/-- The scoped chain fails exactly when no dict on it defines the key. -/
theorem scopeResolve_eq_none_iff (anc : List Dict) (key : String) :
    scopeResolve anc key = none ↔ ∀ d ∈ anc, alookup d key = none := by
  induction anc with
  | nil => simp [scopeResolve]
  | cons d0 rest ih =>
    simp only [scopeResolve]
    cases h0 : alookup d0 key with
    | some v => simp [h0]
    | none => simp [h0, ih]

/-- `Params.__getitem__` on `path ++ [key]`: traverse `path`, then resolve
`key` through the ancestor chain recorded by the traversal. -/
theorem paramsGetTuple_concat (root : PTree) (path : List String) (key : String) :
    paramsGetTuple root (path ++ [key]) =
      match descend [] root path with
      | .error e => .error e
      | .ok (anc, dest) =>
        match scopeResolve (dest.data :: anc) key with
        | some v => .ok v
        | none => .error (.keyErr key) := by
  simp [paramsGetTuple, List.getLast?_concat, List.dropLast_concat]

/-- C1.  Scoped lookup on a parameter tree: with `dest` the node reached by
`path` and `anc` the data dicts of its ancestors (nearest first), (i) a key
present in `dest`'s local data resolves to the local value, whatever the
ancestors hold; (ii) a key absent locally resolves to the value of the
nearest ancestor defining it; (iii) a key defined nowhere on the path to the
root makes the lookup fail with the key-not-found error. -/
theorem scoped_lookup_correct (root : PTree) (path : List String) (key : String)
    (anc : List Dict) (dest : PTree)
    (hdesc : descend [] root path = .ok (anc, dest)) :
    (∀ v, alookup dest.data key = some v →
      paramsGetTuple root (path ++ [key]) = .ok v)
    ∧ (alookup dest.data key = none →
        ∀ i d v, anc.get? i = some d → alookup d key = some v →
          (∀ j d', j < i → anc.get? j = some d' → alookup d' key = none) →
          paramsGetTuple root (path ++ [key]) = .ok v)
    ∧ (alookup dest.data key = none → (∀ d ∈ anc, alookup d key = none) →
        paramsGetTuple root (path ++ [key]) = .error (.keyErr key)) := by
  refine ⟨?_, ?_, ?_⟩
  · intro v hv
    rw [paramsGetTuple_concat, hdesc]
    simp [scopeResolve, hv]
  · intro hnone i d v hd hv hbefore
    rw [paramsGetTuple_concat, hdesc]
    have : scopeResolve anc key = some v :=
      scopeResolve_eq_some_of_first anc i d hd hv hbefore
    simp [scopeResolve, hnone, this]
  · intro hnone hanc
    rw [paramsGetTuple_concat, hdesc]
    have : scopeResolve anc key = none := (scopeResolve_eq_none_iff anc key).mpr hanc
    simp [scopeResolve, hnone, this]

/-- Witness for C1 at the docstring tree: `last_key` is local data of the
node at path `c1.c2`, so the tuple lookup returns it. -/
theorem scoped_lookup_correct_witness :
    paramsGetTuple docExampleTree (["c1", "c2"] ++ ["last_key"]) = .ok (.vstr "value") :=
  (scoped_lookup_correct docExampleTree ["c1", "c2"] "last_key" [[], []]
      (.node [("last_key", .vstr "value")] []) rfl).1 (.vstr "value") rfl

/-- C8.  `Params.__setitem__` on the very tree and path of the `Params`
docstring: the assignment `parameters[('c1', 'c2', 'last_key')] = v` raises
`KeyError('c2')` (the prefix is read back through `__getitem__`, which
treats `'c2'` as a data key of node `c1`), while `__getitem__` on the same
full path succeeds — the set does not perform the get traversal and stores
nothing in the destination node. -/
theorem params_set_docstring_example :
    paramsSetTuple docExampleTree ["c1", "c2", "last_key"] (.vstr "new_value")
        = .raised (.keyErr "c2")
      ∧ paramsGetTuple docExampleTree ["c1", "c2", "last_key"] = .ok (.vstr "value") :=
  ⟨rfl, rfl⟩

/-! ## Lemmas about `Tree.merge` -/

/-- The subtree `Tree.merge` places under child name `n`
(`cls.merge(*[tree.c.get(name, cls()) for tree in trees])`). -/
def mergeChild (c1 c2 : List (String × PTree)) (n : String) : PTree :=
  match alookup c1 n, alookup c2 n with
  | some x, some y => merge2 x y
  | some x, none => merge2 x PTree.empty
  | none, some y => merge2 PTree.empty y
  | none, none => PTree.empty

/-- Lookup in the merged data dict follows `ChainMap`: the first tree wins. -/
theorem alookup_chainData (m1 m2 : Dict) (k : String) :
    alookup (chainData m1 m2) k =
      match alookup m1 k with
      | some v => some v
      | none => alookup m2 k := by
  rw [chainData, alookup_append]
  cases h1 : alookup m1 k with
  | some v => rfl
  | none =>
    simp only []
    induction m2 with
    | nil => simp [alookup]
    | cons hd rest ih =>
      obtain ⟨k2, v2⟩ := hd
      by_cases hk : k2 = k
      · subst hk
        simp [alookup, h1]
      · by_cases hfilt : (alookup m1 k2).isNone
        · simp [alookup, hfilt, hk, ih]
        · simp [alookup, hfilt, hk, ih]

/-- Lookup in the children built by `mergeChildren`: any name on the list is
mapped to its merged subtree, anything else is absent. -/
theorem alookup_mergeChildren (c1 c2 : List (String × PTree)) (names : List String)
    (n : String) :
    alookup (mergeChildren c1 c2 names) n =
      if n ∈ names then some (mergeChild c1 c2 n) else none := by
  induction names with
  | nil => simp [mergeChildren, alookup]
  | cons m rest ih =>
    rw [mergeChildren]
    by_cases hm : m = n
    · subst hm
      simp only [alookup, if_pos rfl, List.mem_cons, true_or, if_true]
      congr 1
      rw [mergeChild]
      cases h1 : alookup c1 m <;> cases h2 : alookup c2 m <;> simp
    · have hmem : (n ∈ m :: rest) ↔ (n ∈ rest) := by
        rw [List.mem_cons]
        exact ⟨fun h => h.resolve_left (fun he => hm he.symm), Or.inr⟩
      simp only [alookup, if_neg hm, ih, hmem]

/-- A name is in the union of the child names exactly when either node has a
child of that name. -/
theorem mem_childNames_iff (c1 c2 : List (String × PTree)) (n : String) :
    n ∈ childNames c1 c2 ↔ (alookup c1 n).isSome ∨ (alookup c2 n).isSome := by
  simp only [childNames, List.mem_append, List.mem_filter,
    alookup_isSome_iff_mem_keys]
  constructor
  · rintro (h | ⟨h, _⟩)
    · exact Or.inl h
    · exact Or.inr h
  · rintro (h | h)
    · exact Or.inl h
    · by_cases h1 : n ∈ keysOf c1
      · exact Or.inl h1
      · exact Or.inr ⟨h, by simpa using h1⟩

/-- Children of a merged tree: present for a name iff either argument has
that child, and then equal to the recursive merge of the two children (the
empty tree standing in for a missing one). -/
theorem alookup_merge2_c (t1 t2 : PTree) (n : String) :
    alookup (merge2 t1 t2).c n =
      if (alookup t1.c n).isSome ∨ (alookup t2.c n).isSome
      then some (mergeChild t1.c t2.c n) else none := by
  obtain ⟨d1, c1⟩ := t1
  obtain ⟨d2, c2⟩ := t2
  rw [merge2]
  simp only [PTree.c, alookup_mergeChildren, mem_childNames_iff]

/-- C2.  `Tree.merge` is precedence-ordered: a key defined at the same path
in both trees resolves, in the merged tree, to the first tree's value; and
at every node the children of the merged tree are the union of the two
children sets, merged recursively (a missing child replaced by the empty
tree).  The merge is a pure function of its arguments: it builds a new tree
and the embedding keeps both inputs unchanged by construction. -/
theorem merge_precedence (t1 t2 : PTree) (path : List String) (k : String) :
    (∀ v1 v2, treeGetLocal t1 path k = some v1 → treeGetLocal t2 path k = some v2 →
      treeGetLocal (merge2 t1 t2) path k = some v1)
    ∧ (∀ n, alookup (merge2 t1 t2).c n =
        if (alookup t1.c n).isSome ∨ (alookup t2.c n).isSome
        then some (mergeChild t1.c t2.c n) else none) := by
  constructor
  · intro v1 v2 h1 h2
    induction path generalizing t1 t2 with
    | nil =>
      obtain ⟨d1, c1⟩ := t1
      obtain ⟨d2, c2⟩ := t2
      simp only [treeGetLocal, nodeAt, Option.some_bind, PTree.data] at h1 h2 ⊢
      rw [merge2]
      simp only [PTree.data, alookup_chainData, h1]
    | cons m rest ih =>
      simp only [treeGetLocal, nodeAt] at h1 h2 ⊢
      cases hc1 : alookup t1.c m with
      | none => simp [hc1] at h1
      | some u1 =>
        cases hc2 : alookup t2.c m with
        | none => simp [hc2] at h2
        | some u2 =>
          rw [hc1] at h1
          rw [hc2] at h2
          simp only [Option.some_bind] at h1 h2
          rw [alookup_merge2_c]
          have hsome : (alookup t1.c m).isSome ∨ (alookup t2.c m).isSome := by
            simp [hc1]
          rw [if_pos hsome]
          simp only [Option.some_bind]
          have hmc : mergeChild t1.c t2.c m = merge2 u1 u2 := by
            rw [mergeChild, hc1, hc2]
          rw [hmc]
          exact ih u1 u2 h1 h2
  · exact alookup_merge2_c t1 t2

/-! ## Lemmas about `Tree.__eq__` -/

/-- Python dict equality is extensional equality of lookups. -/
theorem dictEqB_iff (d1 d2 : Dict) :
    dictEqB d1 d2 = true ↔ ∀ k, alookup d1 k = alookup d2 k := by
  rw [dictEqB, List.all_eq_true]
  constructor
  · intro h k
    by_cases hk : k ∈ keysOf d1 ++ keysOf d2
    · exact beq_iff_eq.mp (h k hk)
    · rw [List.mem_append] at hk
      push_neg at hk
      rw [(alookup_eq_none_iff_not_mem_keys d1 k).mpr hk.1,
        (alookup_eq_none_iff_not_mem_keys d2 k).mpr hk.2]
  · intro h k _
    exact beq_iff_eq.mpr (h k)

/-- `kidsEq` demands, for each child entry of the second node, an equal
child of the same name in the first node. -/
theorem kidsEq_eq_true_iff (c1 c2 : List (String × PTree)) :
    kidsEq c1 c2 = true ↔
      ∀ p ∈ c2, ∃ t1, alookup c1 p.1 = some t1 ∧ treeEq t1 p.2 = true := by
  induction c2 with
  | nil => simp [kidsEq]
  | cons hd rest ih =>
    obtain ⟨n, t2⟩ := hd
    rw [kidsEq]
    rw [Bool.and_eq_true, ih]
    constructor
    · rintro ⟨hhd, hrest⟩
      intro p hp
      rcases List.mem_cons.mp hp with heq | hmem
      · subst heq
        cases hc : alookup c1 n with
        | none => rw [hc] at hhd; exact absurd hhd (by simp)
        | some t1 =>
          rw [hc] at hhd
          exact ⟨t1, rfl, hhd⟩
      · exact hrest p hmem
    · intro h
      constructor
      · obtain ⟨t1, hc, he⟩ := h (n, t2) (List.mem_cons_self _ _)
        rw [hc]
        exact he
      · exact fun p hp => h p (List.mem_cons_of_mem _ hp)

/-- C10.  `Tree.__eq__` is structural and parent-blind: two nodes compare
equal exactly when their local data dicts are extensionally equal and their
(duplicate-free) children dicts are recursively equal; a `Scope` node's
equality only sees the subtree, never the ancestors, so two scoped nodes can
compare equal while their inheritance-resolved contents differ. -/
theorem tree_eq_structural (d1 d2 : Dict) (c1 c2 : List (String × PTree))
    (hnd : (keysOf c2).Nodup) :
    (treeEq (.node d1 c1) (.node d2 c2) = true ↔
      (∀ k, alookup d1 k = alookup d2 k)
      ∧ (∀ n, (alookup c1 n).isSome ↔ (alookup c2 n).isSome)
      ∧ (∀ n t1 t2, alookup c1 n = some t1 → alookup c2 n = some t2 →
          treeEq t1 t2 = true))
    ∧ (∀ a b : ScopeNode, treeEq a.tree b.tree = true → scopeNodeEq a b = true)
    ∧ (∃ a b : ScopeNode, ∃ key : String, scopeNodeEq a b = true ∧
        scopeResolve (a.tree.data :: a.ancestors) key ≠
          scopeResolve (b.tree.data :: b.ancestors) key) := by
  refine ⟨?_, fun a b h => h, ?_⟩
  · rw [treeEq]
    rw [Bool.and_eq_true, Bool.and_eq_true, dictEqB_iff, kidsEq_eq_true_iff,
      List.all_eq_true]
    constructor
    · rintro ⟨⟨hdata, hc1names⟩, hkids⟩
      refine ⟨hdata, ?_, ?_⟩
      · intro n
        constructor
        · intro hs
          have hmem : n ∈ keysOf c1 := (alookup_isSome_iff_mem_keys c1 n).mp hs
          exact hc1names n hmem
        · intro hs
          obtain ⟨t2, ht2⟩ := Option.isSome_iff_exists.mp hs
          obtain ⟨t1, ht1, _⟩ := hkids (n, t2) (mem_of_alookup_eq_some ht2)
          simp [ht1]
      · intro n t1 t2 h1 h2
        obtain ⟨t1', ht1', he⟩ := hkids (n, t2) (mem_of_alookup_eq_some h2)
        rw [h1] at ht1'
        cases ht1'
        exact he
    · rintro ⟨hdata, hnames, hrec⟩
      refine ⟨⟨hdata, ?_⟩, ?_⟩
      · intro n hn
        exact ((hnames n).mp ((alookup_isSome_iff_mem_keys c1 n).mpr hn))
      · rintro ⟨n, t2⟩ hp
        have h2 : alookup c2 n = some t2 := alookup_eq_some_of_mem_of_nodup hnd hp
        have h1s : (alookup c1 n).isSome := (hnames n).mpr (by simp [h2])
        obtain ⟨t1, ht1⟩ := Option.isSome_iff_exists.mp h1s
        exact ⟨t1, ht1, hrec n t1 t2 ht1 h2⟩
  · refine ⟨⟨PTree.empty, [[("k", .vint 1)]]⟩, ⟨PTree.empty, [[("k", .vint 2)]]⟩, "k", ?_, ?_⟩
    · simp [scopeNodeEq, PTree.empty, treeEq, dictEqB, kidsEq, keysOf]
    · simp [PTree.empty, PTree.data, scopeResolve, alookup]

/-- Witness for C10 at a concrete pair of nodes: two single-child trees with
equal data compare equal, and the inherited-content counterexample pair
exists. -/
theorem tree_eq_structural_witness :
    treeEq (.node [("a", .vint 3)] []) (.node [("a", .vint 3)] []) = true
      ∧ ∃ a b : ScopeNode, ∃ key : String, scopeNodeEq a b = true ∧
          scopeResolve (a.tree.data :: a.ancestors) key ≠
            scopeResolve (b.tree.data :: b.ancestors) key := by
  constructor
  · exact (tree_eq_structural [("a", .vint 3)] [("a", .vint 3)] [] []
        (by simp [keysOf])).1.mpr
      ⟨fun k => rfl, fun n => Iff.rfl, fun n t1 t2 h1 h2 => by
        simp [alookup] at h1⟩
  · exact (tree_eq_structural [] [] [] [] (by simp [keysOf])).2.2

/-! ## Connection scaling, projection validation, multisynapse creation -/

/-- C3.  Connection spatial scaling: the scale factor is `1.0` unless the
connection is convergent and the source layer opts into kernel/mask scaling
(then it is the source layer's grid-to-extent conversion of its
receptive-field scale parameter) or divergent with the target opting in
(symmetrically); the two scaling branches are mutually exclusive.  A numeric
kernel is unchanged, a gaussian kernel has its `sigma` multiplied by the
factor, a circular mask's radius and every extent component of a rectangular
mask are multiplied by the factor. -/
theorem connection_scaling (source target : LayerParams) (p : ConnNestParams) :
    (¬(p.connection_type = "convergent" ∧ source.scale_kernels_masks.getD true = true) →
      ¬(p.connection_type = "divergent" ∧ target.scale_kernels_masks.getD true = true) →
      (buildConnection source target p).1 = DEFAULT_SCALE_FACTOR)
    ∧ (p.connection_type = "convergent" → source.scale_kernels_masks.getD true = true →
        (buildConnection source target p).1 =
          source.extent_units (source.rf_scale_factor.getD 1))
    ∧ (p.connection_type = "divergent" → target.scale_kernels_masks.getD true = true →
        (buildConnection source target p).1 =
          target.extent_units (target.rf_scale_factor.getD 1))
    ∧ ¬((p.connection_type = "convergent" ∧ source.scale_kernels_masks.getD true = true)
        ∧ (p.connection_type = "divergent" ∧ target.scale_kernels_masks.getD true = true))
    ∧ (∀ v, p.kernel = .num v → (buildConnection source target p).2.1 = .num v)
    ∧ (∀ sig rest, p.kernel = .gaussian sig rest →
        (buildConnection source target p).2.1 =
          .gaussian (sig * (buildConnection source target p).1) rest)
    ∧ (∀ r, p.mask = .circular r →
        (buildConnection source target p).2.2.1 =
          .circular (r * (buildConnection source target p).1))
    ∧ (∀ es, p.mask = .rectangular es →
        (buildConnection source target p).2.2.1 =
          .rectangular (es.map (fun q =>
            (q.1, q.2.map (fun x => x * (buildConnection source target p).1))))) := by
  refine ⟨?_, ?_, ?_, ?_, ?_, ?_, ?_, ?_⟩
  · intro h1 h2
    simp only [buildConnection, connScaleFactor]
    rw [if_neg, if_neg]
    · simpa using h2
    · simpa using h1
  · intro hc hs
    simp only [buildConnection, connScaleFactor]
    rw [if_pos (by simp [hc, hs])]
  · intro hd ht
    simp only [buildConnection, connScaleFactor]
    rw [if_neg (by simp [hd]), if_pos (by simp [hd, ht])]
  · rintro ⟨⟨hc, _⟩, ⟨hd, _⟩⟩
    rw [hc] at hd
    exact absurd hd (by decide)
  · intro v hv
    simp [buildConnection, scale_kernel, hv]
  · intro sig rest hk
    simp [buildConnection, scale_kernel, hk]
  · intro r hm
    simp [buildConnection, scale_mask, hm]
  · intro es hm
    simp [buildConnection, scale_mask, hm]

/-- Whether an exception of projection construction is a `ValueError`. -/
def ProjErr.isValueError : ProjErr → Bool
  | .assertionError => false
  | .valueErrTarget => true
  | .valueErrSourcePop => true

/-- C4.  Projection topology validation at construction: with a well-formed
projection model, construction against an `InputLayer` target raises
`ValueError`; construction from an `InputLayer` source whose source
population is not the parrot relay population raises `ValueError`; and an
`InputLayer` source with the relay population as source population (and a
non-input target) is constructed without error.  All of this happens in
`__init__`, before any engine call (`create()` is the only method touching
the engine). -/
theorem projection_validation (model : ProjModel) (source : ProjLayer)
    (sp : Option String) (target : ProjLayer) (tp : Option String)
    (hm : model.type = "topological" ∨ model.type = "multisynapse")
    (hk : (alookup model.nest_params
        (if model.type = "topological" then "synapse_model" else "model")).isSome) :
    (target.kind = .inputLayer →
      mkBaseProjection model source sp target tp = .error .valueErrTarget)
    ∧ (source.kind = .inputLayer → sp ≠ some PARROT_MODEL →
        ∃ e, mkBaseProjection model source sp target tp = .error e
          ∧ e.isValueError = true)
    ∧ (source.kind = .inputLayer → sp = some PARROT_MODEL →
        target.kind ≠ .inputLayer →
        ∃ proj, mkBaseProjection model source sp target tp = .ok proj) := by
  obtain ⟨syn, hsyn⟩ := Option.isSome_iff_exists.mp hk
  have hnot : ¬¬(model.type = "topological" ∨ model.type = "multisynapse") :=
    not_not_intro hm
  refine ⟨?_, ?_, ?_⟩
  · intro htgt
    simp only [mkBaseProjection, if_neg hnot, hsyn]
    simp [validateProjection, htgt]
  · intro hsrc hpop
    by_cases htgt : target.kind = .inputLayer
    · refine ⟨.valueErrTarget, ?_, rfl⟩
      simp only [mkBaseProjection, if_neg hnot, hsyn]
      simp [validateProjection, htgt]
    · refine ⟨.valueErrSourcePop, ?_, rfl⟩
      simp only [mkBaseProjection, if_neg hnot, hsyn]
      simp [validateProjection, htgt, hsrc, hpop]
  · intro hsrc hpop htgt
    refine ⟨⟨model, source, sp, target, tp,
      if model.type = "topological" then "synapse_model" else "model", syn⟩, ?_⟩
    simp only [mkBaseProjection, if_neg hnot, hsyn]
    simp [validateProjection, htgt, hpop]

/-- Witness for C4: a concrete topological projection from an `InputLayer`
through its parrot population into an ordinary layer is built successfully. -/
theorem projection_validation_witness :
    ∃ proj, mkBaseProjection
        ⟨"proj", "topological", [("synapse_model", "static_synapse")]⟩
        ⟨.inputLayer, "input"⟩ (some PARROT_MODEL) ⟨.plainLayer, "l1"⟩ none
      = .ok proj :=
  (projection_validation ⟨"proj", "topological", [("synapse_model", "static_synapse")]⟩
      ⟨.inputLayer, "input"⟩ (some PARROT_MODEL) ⟨.plainLayer, "l1"⟩ none
      (Or.inl rfl) (by rw [if_pos rfl]; rfl)).2.2 rfl rfl (by decide)

/-- C5.  Multisynapse creation: the created batch replicates exactly the
existing connections that carry the query label and whose endpoints lie in
the declared source and target populations; when nothing matches, creation
fails with `ParameterError` and no `Connect` call is issued. -/
theorem multisynapse_create_spec (existing : List NestConn) (query : Int)
    (src_pop_gids tgt_pop_gids : List ℕ) (ms : Bool) :
    (multisynapseCreate existing query src_pop_gids tgt_pop_gids ms
        = .error .parameterError ↔
      ∀ c ∈ existing, ¬(c.label = query ∧ c.src ∈ src_pop_gids ∧ c.tgt ∈ tgt_pop_gids))
    ∧ (∀ call, multisynapseCreate existing query src_pop_gids tgt_pop_gids ms
          = .ok call →
        call.rule = "one_to_one"
        ∧ call.make_symmetric = ms
        ∧ call.srcs.zip call.tgts =
            (existing.filter (fun c => (src_pop_gids.contains c.src
                && tgt_pop_gids.contains c.tgt) && c.label == query)).map
              (fun c => (c.src, c.tgt))
        ∧ ∀ st, st ∈ call.srcs.zip call.tgts ↔
            ∃ c ∈ existing, c.label = query ∧ c.src ∈ src_pop_gids
              ∧ c.tgt ∈ tgt_pop_gids ∧ st = (c.src, c.tgt)) := by
  rw [multisynapseCreate]
  simp only [List.filter_filter]
  constructor
  · by_cases hnil : existing.filter (fun c => (src_pop_gids.contains c.src
        && tgt_pop_gids.contains c.tgt) && c.label == query) = []
    · rw [if_pos hnil]
      simp only [true_iff]
      rw [List.filter_eq_nil_iff] at hnil
      intro c hc hmatch
      exact hnil c hc (by simp [hmatch.1, hmatch.2.1, hmatch.2.2])
    · rw [if_neg hnil]
      simp only [reduceCtorEq, false_iff]
      rw [List.filter_eq_nil_iff] at hnil
      push_neg at hnil
      obtain ⟨c, hc, hmatch⟩ := hnil
      simp only [Bool.and_eq_true, beq_iff_eq, List.contains, List.elem_eq_mem,
        decide_eq_true_eq] at hmatch
      intro hall
      exact hall c hc ⟨hmatch.2, hmatch.1.1, hmatch.1.2⟩
  · intro call hcall
    by_cases hnil : existing.filter (fun c => (src_pop_gids.contains c.src
        && tgt_pop_gids.contains c.tgt) && c.label == query) = []
    · rw [if_pos hnil] at hcall
      cases hcall
    · rw [if_neg hnil] at hcall
      cases hcall
      refine ⟨rfl, rfl, List.zip_map' _ _ _, ?_⟩
      intro st
      rw [List.zip_map', List.mem_map]
      constructor
      · rintro ⟨c, hc, hst⟩
        rw [List.mem_filter] at hc
        simp only [Bool.and_eq_true, beq_iff_eq, List.contains, List.elem_eq_mem,
          decide_eq_true_eq] at hc
        exact ⟨c, hc.1, hc.2.2, hc.2.1.1, hc.2.1.2, hst.symm⟩
      · rintro ⟨c, hc, hlabel, hsrc, htgt, hst⟩
        refine ⟨c, ?_, hst.symm⟩
        rw [List.mem_filter]
        simp [hc, hlabel, hsrc, htgt]


/-! ## The one-shot probabilistic guard -/

/-- C6 (counterexample to the claim as stated).  `_prob_changed` is set after
*any* completed non-empty change, so on a fresh layer a `proportion == 1.0`
change succeeds and sets the flag, and a later probabilistic change on the
same layer raises the guard exception — contrary to the claim that a prior
`proportion == 1.0` change does not trip the guard. -/
theorem change_unit_states_full_change_trips_guard :
    changeUnitStates false [("V_m", .vint 0)] 1 "constant" = .ok true
      ∧ changeUnitStates true [("V_m", .vint 0)] (1/2) "constant"
          = .error .guardException := by
  constructor
  · rfl
  · norm_num [changeUnitStates]

/-- C6 (amended).  One-shot guard on `change_unit_states`: with valid
arguments and a non-empty change dict, two probabilistic
(`proportion < 1.0`) calls raise on the second; calls with
`proportion == 1.0` never raise the guard; but the flag is set after *any*
completed non-empty change, so a prior `proportion == 1.0` change does trip
the guard for a later probabilistic change. -/
theorem change_unit_states_one_shot (changes : Dict) (p : ℚ) (ct : String)
    (hct : ct = "constant" ∨ ct = "multiplicative")
    (hne : changes ≠ [])
    (hp0 : 0 ≤ p) (hp1 : p < 1) :
    changeUnitStates false changes p ct = .ok true
    ∧ changeUnitStates true changes p ct = .error .guardException
    ∧ (∀ flag, changeUnitStates flag changes 1 ct = .ok true)
    ∧ (changeUnitStates false changes 1 ct = .ok true
        ∧ changeUnitStates true changes p ct = .error .guardException) := by
  have hctn : ¬¬(ct = "constant" ∨ ct = "multiplicative") := not_not_intro hct
  have hprop : ¬(p > 1 ∨ p < 0) := by
    push_neg
    constructor <;> linarith
  have hpne : p ≠ 1 := ne_of_lt hp1
  have hone : ¬((1 : ℚ) > 1 ∨ (1 : ℚ) < 0) := by norm_num
  refine ⟨?_, ?_, ?_, ?_, ?_⟩
  · simp [changeUnitStates, hctn, hprop, hne]
  · simp [changeUnitStates, hctn, hprop, hne, hpne]
  · intro flag
    simp [changeUnitStates, hctn, hone, hne]
  · simp [changeUnitStates, hctn, hone, hne]
  · simp [changeUnitStates, hctn, hprop, hne, hpne]

/-- Witness for C6 (amended) at concrete arguments: a first probabilistic
change on a fresh layer succeeds, a second one raises. -/
theorem change_unit_states_one_shot_witness :
    changeUnitStates false [("V_m", .vint 0)] (1/2) "constant" = .ok true
      ∧ changeUnitStates true [("V_m", .vint 0)] (1/2) "constant"
          = .error .guardException :=
  ⟨(change_unit_states_one_shot [("V_m", .vint 0)] (1/2) "constant"
      (Or.inl rfl) (by simp) (by norm_num) (by norm_num)).1,
   (change_unit_states_one_shot [("V_m", .vint 0)] (1/2) "constant"
      (Or.inl rfl) (by simp) (by norm_num) (by norm_num)).2.1⟩

/-! ## Random subset selection -/

/-- Indexing succeeds on in-range indices and returns one element per index. -/
theorem getAllIdx_eq_some (l : List ℕ) :
    ∀ idxs : List ℕ, (∀ i ∈ idxs, i < l.length) →
      ∃ out, getAllIdx l idxs = some out ∧ out.length = idxs.length := by
  intro idxs
  induction idxs with
  | nil => intro _; exact ⟨[], rfl, rfl⟩
  | cons i rest ih =>
    intro h
    have hi : i < l.length := h i (List.mem_cons_self i rest)
    obtain ⟨out, hout, hlen⟩ := ih (fun j hj => h j (List.mem_cons_of_mem i hj))
    refine ⟨l.get ⟨i, hi⟩ :: out, ?_, by simp [hlen]⟩
    simp only [getAllIdx, List.get?_eq_get hi, hout]

/-- Shifting: indexing a cons with positive indices is indexing the tail
with predecessors. -/
theorem getAllIdx_cons_shift (a : ℕ) (l' : List ℕ) :
    ∀ idxs : List ℕ, (∀ i ∈ idxs, 1 ≤ i) →
      getAllIdx (a :: l') idxs = getAllIdx l' (idxs.map (fun i => i - 1)) := by
  intro idxs
  induction idxs with
  | nil => intro _; rfl
  | cons i rest ih =>
    intro h
    have hi : 1 ≤ i := h i (List.mem_cons_self i rest)
    obtain ⟨j, rfl⟩ : ∃ j, i = j + 1 := ⟨i - 1, by omega⟩
    rw [List.map_cons]
    simp only [getAllIdx, Nat.add_sub_cancel, List.get?_cons_succ]
    rw [ih (fun x hx => h x (List.mem_cons_of_mem _ hx))]

/-- Selecting at a strictly increasing list of indices yields a sublist:
the selection preserves the relative order of the source list and never
reuses a position. -/
theorem getAllIdx_sublist :
    ∀ (l : List ℕ) (idxs : List ℕ) (out : List ℕ),
      idxs.Pairwise (· < ·) → getAllIdx l idxs = some out → out.Sublist l := by
  intro l
  induction l with
  | nil =>
    intro idxs out hpw h
    cases idxs with
    | nil =>
      simp only [getAllIdx, Option.some.injEq] at h
      subst h
      exact List.nil_sublist []
    | cons i rest => simp [getAllIdx] at h
  | cons a l' ih =>
    intro idxs out hpw h
    cases idxs with
    | nil =>
      simp only [getAllIdx, Option.some.injEq] at h
      subst h
      exact List.nil_sublist _
    | cons i rest =>
      have hrest_pw : rest.Pairwise (· < ·) := hpw.of_cons
      have hhead : ∀ x ∈ rest, i < x := fun x hx => List.rel_of_pairwise_cons hpw hx
      cases i with
      | zero =>
        have hpos : ∀ x ∈ rest, 1 ≤ x := fun x hx => hhead x hx
        simp only [getAllIdx, List.get?_cons_zero] at h
        rw [getAllIdx_cons_shift a l' rest hpos] at h
        cases hrec : getAllIdx l' (rest.map (fun i => i - 1)) with
        | none => rw [hrec] at h; cases h
        | some xs =>
          rw [hrec] at h
          simp only [Option.some.injEq] at h
          rw [← h]
          have hpw' : (rest.map (fun i => i - 1)).Pairwise (· < ·) := by
            rw [List.pairwise_map]
            exact hrest_pw.imp_of_mem (fun ha hb hxy => by
              have := hpos _ ha
              omega)
          exact List.Sublist.cons₂ a (ih (rest.map (fun i => i - 1)) xs hpw' hrec)
      | succ j =>
        have hpos : ∀ x ∈ (j + 1) :: rest, 1 ≤ x := by
          intro x hx
          rcases List.mem_cons.mp hx with rfl | hx
          · omega
          · have := hhead x hx
            omega
        rw [getAllIdx_cons_shift a l' _ hpos] at h
        have hpw' : (((j + 1) :: rest).map (fun i => i - 1)).Pairwise (· < ·) := by
          rw [List.pairwise_map]
          exact hpw.imp_of_mem (fun ha hb hxy => by
            have := hpos _ ha
            omega)
        exact List.Sublist.cons a (ih _ out hpw' h)

/-- C7.  `get_gids_subset` under the `random.sample` contract: for a
proportion `p ∈ [0, 1]` and a drawn sample of `⌊len * p⌋` distinct in-range
indices, the selection succeeds, has exactly `⌊len * p⌋` elements, and is a
sublist of the input — elements drawn from the list without replacement, in
the list's own relative order. -/
theorem get_gids_subset_spec (gids_list : List ℕ) (p : ℚ) (sampled : List ℕ)
    (hp0 : 0 ≤ p) (hp1 : p ≤ 1)
    (hs : IsSample gids_list.length
      (Nat.floor ((gids_list.length : ℚ) * p)) sampled) :
    ∃ out, get_gids_subset gids_list sampled = some out
      ∧ out.length = Nat.floor ((gids_list.length : ℚ) * p)
      ∧ out.Sublist gids_list := by
  obtain ⟨hlen, hnd, hrange⟩ := hs
  have hperm : (sampled.insertionSort (· ≤ ·)).Perm sampled :=
    List.perm_insertionSort (· ≤ ·) sampled
  have hsorted : (sampled.insertionSort (· ≤ ·)).Sorted (· ≤ ·) :=
    List.sorted_insertionSort (· ≤ ·) sampled
  have hnd' : (sampled.insertionSort (· ≤ ·)).Nodup := hperm.nodup_iff.mpr hnd
  have hpw : (sampled.insertionSort (· ≤ ·)).Pairwise (· < ·) :=
    hsorted.lt_of_le hnd'
  have hrange' : ∀ i ∈ sampled.insertionSort (· ≤ ·), i < gids_list.length :=
    fun i hi => hrange i (hperm.mem_iff.mp hi)
  obtain ⟨out, hout, holen⟩ := getAllIdx_eq_some gids_list _ hrange'
  refine ⟨out, hout, ?_, getAllIdx_sublist gids_list _ out hpw hout⟩
  rw [holen, hperm.length_eq, hlen]

/-- Witness for C7 at a concrete input: three elements, proportion `2/3`,
sample `[2, 0]` — the selection is `[10, 30]`, of size `⌊3 * (2/3)⌋ = 2`. -/
theorem get_gids_subset_spec_witness :
    ∃ out, get_gids_subset [10, 20, 30] [2, 0] = some out
      ∧ out.length = Nat.floor (((3 : ℕ) : ℚ) * (2/3))
      ∧ out.Sublist [10, 20, 30] :=
  get_gids_subset_spec [10, 20, 30] (2/3) [2, 0] (by norm_num) (by norm_num)
    ⟨by norm_num, by norm_num, by norm_num⟩

/-! ## The `if_not_created` guard -/

/-- C9.  The creation guard: a successful first call completes, sets the
flag, and makes the next call a warn-and-no-op that leaves the state alone
and never runs the body; a body that raises leaves the flag reset, so the
exception propagates and a subsequent call runs the body again. -/
theorem create_guard_spec {σ ε β : Type} (body : σ → σ × Except ε β) (s : σ) :
    (∀ s2 v, body s = (s2, .ok v) →
      if_not_created body false s = (true, s2, .completed v)
      ∧ if_not_created body true s2 = (true, s2, .skipped))
    ∧ (∀ s2 e, body s = (s2, .error e) →
      if_not_created body false s = (false, s2, .raised e)
      ∧ ∀ s3 v, body s2 = (s3, .ok v) →
          if_not_created body false s2 = (true, s3, .completed v))
    ∧ (∀ st : σ, if_not_created body true st = (true, st, .skipped)) := by
  refine ⟨?_, ?_, fun st => rfl⟩
  · intro s2 v hbody
    exact ⟨by simp [if_not_created, hbody], rfl⟩
  · intro s2 e hbody
    refine ⟨by simp [if_not_created, hbody], ?_⟩
    intro s3 v hbody2
    simp [if_not_created, hbody2]

end NETS
